import Mathlib

/-!
# Verification of the Pulse cross-exchange monitor (`server.py`)

A shallow embedding of the core of the monitor: the upstream-document
normalizer (`parse_perp_sections` with its helpers `safe_get`,
`mid_from_bid_ask`, `guess_funding`), the bounded ring-buffer store written by
`fetch_loop`, the exchange pair selector `pick_pair_exchanges`, and the
query path `api_data` (current spread, rolling mean/std/z-score, funding
aggregation, ordering of the result list).

Modelling conventions:
* Decoded JSON documents are values of the inductive type `JVal`; a Python
  `None` (either an absent field or a JSON `null`) is an absent `Option`.
* Python floats are modelled as exact rationals `ℚ` (float rounding, `inf`,
  `nan` and underscore digit separators are outside the model); the standard
  deviation, which the code obtains through `math.sqrt`, lives in `ℝ`.
* Code that can raise a Python exception is modelled in `Except PyErr`;
  a bare `except:` handler corresponds to mapping any error to the
  caught-branch result.
* Dictionaries are association lists in insertion order, with Python `dict`
  semantics for lookup, `get` with default, and insert-or-overwrite.
-/

namespace Pulse

/-- A decoded JSON document (the result of `resp.json()` in Python). -/
inductive JVal : Type where
  | null : JVal
  | bool : Bool → JVal
  | num : ℚ → JVal
  | str : String → JVal
  | arr : List JVal → JVal
  | obj : List (String × JVal) → JVal

/-- The one Python exception kind the embedded code can actually raise:
calling `.get` on a value that is not a dict (`AttributeError`). -/
inductive PyErr : Type where
  | attributeError : PyErr
deriving DecidableEq

/-! Section: Character and string helpers (ASCII fragment of Python's `str`) -/

/-- ASCII lower-casing, as `str.lower` acts on the ASCII section keys. -/
def lowerChar (c : Char) : Char :=
  if 'A' ≤ c ∧ c ≤ 'Z' then Char.ofNat (c.toNat + 32) else c

/-- Python `str.lower` (ASCII). -/
def lowerStr (s : String) : String := ⟨s.toList.map lowerChar⟩

/-- Does `pat` occur as a contiguous subsequence? (`tok in name_lc`). -/
def containsSeq (pat : List Char) : List Char → Bool
  | [] => pat.isPrefixOf []
  | c :: cs => pat.isPrefixOf (c :: cs) || containsSeq pat cs

/-- Python's `tok in s` substring test. -/
def containsTok (s tok : String) : Bool := containsSeq tok.toList s.toList

/-- Fuel-driven worker for `removeAllStr`: removes every leftmost,
non-overlapping occurrence of `pat` (assumed non-empty), exactly as
`str.replace(pat, "")` does. The fuel starts at the string length, which
bounds the number of steps. -/
def removeSeqAux (pat : List Char) : ℕ → List Char → List Char
  | 0, s => s
  | _ + 1, [] => []
  | n + 1, c :: cs =>
    if pat.isPrefixOf (c :: cs) then removeSeqAux pat n (cs.drop (pat.length - 1))
    else c :: removeSeqAux pat n cs

/-- Python `s.replace(pat, "")` for a non-empty `pat`. -/
def removeAllStr (s pat : String) : String :=
  ⟨removeSeqAux pat.toList s.toList.length s.toList⟩

/-- Is `c` one of the characters stripped by `.strip("_ ")`? -/
def isUnderscoreSpace (c : Char) : Bool := c = '_' || c = ' '

/-- Python `s.strip("_ ")`. -/
def stripUS (s : String) : String :=
  ⟨((s.toList.dropWhile isUnderscoreSpace).reverse.dropWhile isUnderscoreSpace).reverse⟩

/-- The whitespace characters Python's numeric constructors strip. -/
def isPySpace (c : Char) : Bool :=
  c = ' ' || c = '\t' || c = '\n' || c = '\r' || c.toNat = 11 || c.toNat = 12

/-- Strip leading and trailing whitespace (as `float(s)` / `int(s)` do). -/
def trimWs (cs : List Char) : List Char :=
  ((cs.dropWhile isPySpace).reverse.dropWhile isPySpace).reverse

/-- The natural number denoted by a list of decimal digit characters. -/
def digToNat (cs : List Char) : ℕ := cs.foldl (fun n c => 10 * n + (c.toNat - 48)) 0

/-- Consume one optional leading sign; `true` means negative. -/
def splitSign : List Char → Bool × List Char
  | '-' :: cs => (true, cs)
  | '+' :: cs => (false, cs)
  | cs => (false, cs)

/-- Parse the mantissa of a Python float literal: digits, an optional dot,
more digits, at least one digit overall. Returns the digit string read as a
natural number together with the number of fractional digits, so the denoted
value is `digits / 10 ^ fracLen`. -/
def parseMantissa (cs : List Char) : Option (ℕ × ℕ) :=
  let intPart := cs.takeWhile Char.isDigit
  let rest := cs.dropWhile Char.isDigit
  match rest with
  | [] => if intPart = [] then none else some (digToNat intPart, 0)
  | '.' :: rest2 =>
    let fracPart := rest2.takeWhile Char.isDigit
    let rest3 := rest2.dropWhile Char.isDigit
    if rest3 = [] ∧ (intPart ≠ [] ∨ fracPart ≠ []) then
      some (digToNat (intPart ++ fracPart), fracPart.length)
    else none
  | _ => none

/-- Parse the exponent that follows `e` in a float literal. -/
def parseExpPart (cs : List Char) : Option ℤ :=
  let p := splitSign cs
  if p.2 ≠ [] ∧ p.2.all Char.isDigit then
    some (if p.1 then -(digToNat p.2 : ℤ) else (digToNat p.2 : ℤ))
  else none

/-- Split a float literal at the first `e` (the input is already
lower-cased, so this also covers `E`). -/
def splitAtE (cs : List Char) : List Char × Option (List Char) :=
  let before := cs.takeWhile (fun c => c ≠ 'e')
  let rest := cs.dropWhile (fun c => c ≠ 'e')
  match rest with
  | [] => (before, none)
  | _ :: tail => (before, some tail)

/-- The syntactic content of a parsed Python float literal: sign, the
mantissa digit string as a natural number, the count of fractional digits,
and the exponent. Kept separate from the denoted rational so that the whole
character-level parse is decidable. -/
structure FloatRep : Type where
  neg : Bool
  digits : ℕ
  fracLen : ℕ
  exp : ℤ
deriving DecidableEq

/-- The character-level part of Python `float(s)` on a string, restricted to
finite decimal literals (`inf`, `nan` and underscore separators are outside
the model): optional surrounding whitespace, optional sign, digits with an
optional dot, optional exponent. `none` models a raised `ValueError`. -/
def pyFloatRep (s : String) : Option FloatRep :=
  let cs := (trimWs s.toList).map lowerChar
  let p := splitSign cs
  let q := splitAtE p.2
  match parseMantissa q.1 with
  | none => none
  | some m =>
    match (match q.2 with
           | none => some (0 : ℤ)
           | some ecs => parseExpPart ecs) with
    | none => none
    | some ex => some ⟨p.1, m.1, m.2, ex⟩

/-- The rational value a parsed float literal denotes. -/
def repVal (r : FloatRep) : ℚ :=
  let v := (r.digits : ℚ) / (10 : ℚ) ^ r.fracLen * (10 : ℚ) ^ r.exp
  if r.neg then -v else v

/-- Python `float(s)` on a string (see `pyFloatRep`). -/
def pyFloatStr (s : String) : Option ℚ := (pyFloatRep s).map repVal

/-- Python `int(s)` on a string: optional whitespace, optional sign, one or
more decimal digits. `none` models a raised `ValueError`. -/
def pyIntStr (s : String) : Option ℤ :=
  let cs := trimWs s.toList
  let p := splitSign cs
  if p.2 ≠ [] ∧ p.2.all Char.isDigit then
    some (if p.1 then -(digToNat p.2 : ℤ) else (digToNat p.2 : ℤ))
  else none

/-! Section: Python dictionary and truthiness semantics -/

/-- Python truthiness of a decoded JSON value. -/
def truthy : JVal → Bool
  | JVal.null => false
  | JVal.bool b => b
  | JVal.num q => q ≠ 0
  | JVal.str s => s ≠ ""
  | JVal.arr l => !l.isEmpty
  | JVal.obj l => !l.isEmpty

/-- Raw association-list lookup (Python `dict` keys are unique, so the first
match is the match). -/
def lookupStr (l : List (String × JVal)) (k : String) : Option JVal :=
  match l.find? (fun p => p.1 == k) with
  | some p => some p.2
  | none => none

/-- Python `d.get(k)` on a dict: `None` both for an absent key and for a
stored JSON `null` (both are Python `None`), collapsed into `Option.none`. -/
def dictGet (l : List (String × JVal)) (k : String) : Option JVal :=
  match lookupStr l k with
  | some JVal.null => none
  | some v => some v
  | none => none

/-- Python `d.get(k, dflt)`: the stored value if the key is present (a stored
JSON `null` is Python `None`, hence absent), otherwise the default. -/
def dictGetD (l : List (String × JVal)) (k : String) (dflt : Option JVal) : Option JVal :=
  match lookupStr l k with
  | some JVal.null => none
  | some v => some v
  | none => dflt

/-- The helper `safe_get(d, k)` from server.py (lines 32–38), specialised to the single
key with which the source ever calls it: if `d` is not a dict the default
`None` is returned, and a `None` (absent/null) value is the default too. -/
def safe_get (d : JVal) (k : String) : Option JVal :=
  match d with
  | JVal.obj l => dictGet l k
  | _ => none

/-- Python `float(v)` on a decoded JSON value: numbers are themselves,
booleans are 0/1, strings go through the literal parser, anything else
(`None`, lists, dicts) raises and is modelled as `none`. -/
def pyFloat : JVal → Option ℚ
  | JVal.num q => some q
  | JVal.str s => pyFloatStr s
  | JVal.bool b => some (if b then 1 else 0)
  | _ => none

/-- Python `float(v)` where `v` itself may be `None` (which raises). -/
def pyFloatOpt (v : Option JVal) : Option ℚ := v.bind pyFloat

/-! Section: Normalizer helpers -/

/-- The helper `mid_from_bid_ask(b, a)` from server.py (lines 40–47): the arguments are
whatever the row held (possibly `None`); the bare `except:` turns any parse
failure into the `None` result, and the mid is returned only when both sides
parse with `0 < b`, `0 < a`, `b ≤ a`. -/
def mid_from_bid_ask (b a : Option JVal) : Option ℚ :=
  match pyFloatOpt b, pyFloatOpt a with
  | some qb, some qa =>
    if 0 < qb ∧ 0 < qa ∧ qb ≤ qa then some ((qa + qb) / 2) else none
  | _, _ => none

/-- The ordered list of funding-field candidates tried by `guess_funding`. -/
def fundingKeys : List String :=
  ["fundingRate", "funding", "fr", "funding_rate", "fundingRate8h"]

/-- The fallback parse in `guess_funding`'s inner `except`:
`float(str(v).replace("%", "")) / 100.0`. For a non-string `v` that reached
this point (a list or a dict — numbers and booleans always pass the direct
`float`), `str(v)` renders like `"[1, 2]"` or `"{...}"` and never parses as a
float, so only strings can succeed; note that `str.replace` removes every
percent sign, not only a trailing one. -/
def percentFallback : JVal → Option ℚ
  | JVal.str s => (pyFloatStr (removeAllStr s "%")).map (fun q => q / 100)
  | _ => none

/-- One iteration of `guess_funding`'s candidate loop (server.py lines
54–64) for key `k`: skip an absent/`None` value; otherwise try a direct
`float`, then the percent fallback; `none` means the loop continues. -/
def candFunding (d : List (String × JVal)) (k : String) : Option ℚ :=
  match dictGet d k with
  | none => none
  | some v =>
    match pyFloat v with
    | some q => some q
    | none => percentFallback v

/-- The extractor `guess_funding(d)` from server.py (lines 49–65), on a row dict: the
first candidate key producing a number wins, else `None`. -/
def guess_funding (d : List (String × JVal)) : Option ℚ :=
  fundingKeys.findSome? (candFunding d)

/-- Modelled from the spec (§4.1): the funding extraction as the spec words
it — per candidate, a direct numeric parse, and if that fails "stripping a
trailing percent sign and dividing by 100". This differs from the source,
which removes every percent sign; the two are compared in claim C6. -/
def stripTrailingPercent (s : String) : String :=
  match s.toList.reverse with
  | '%' :: rest => ⟨rest.reverse⟩
  | _ => s

/-- Modelled from the spec (§4.1): spec-worded variant of `guess_funding`
whose fallback strips only a trailing percent sign. -/
def guess_funding_specModel (d : List (String × JVal)) : Option ℚ :=
  fundingKeys.findSome? (fun k =>
    match dictGet d k with
    | none => none
    | some v =>
      match pyFloat v with
      | some q => some q
      | none =>
        match v with
        | JVal.str s => (pyFloatStr (stripTrailingPercent s)).map (fun q => q / 100)
        | _ => none)

/-! Section: Normalizer: `parse_perp_sections` -/

/-- One normalized row as appended by `parse_perp_sections`: the raw `name`,
`a`, `b` values (Python `None` is `Option.none`) and the extracted funding. -/
structure Row : Type where
  name : Option JVal
  a : Option JVal
  b : Option JVal
  funding : Option ℚ

/-- Python truthiness of an optional value (`not sym` in the source):
falsy iff `None` or a falsy value. -/
def notTruthyOpt (o : Option JVal) : Bool :=
  match o with
  | none => true
  | some v => !truthy v

/-- The per-element body of the `for it in lst` loop of
`parse_perp_sections` (server.py lines 92–102). When the fallback branch is
taken and `it` is not a dict, `it.get("ask", a)` raises `AttributeError`;
`guess_funding(it)` would likewise raise on a non-dict, but every path that
reaches it has established that `it` is a dict. -/
def parseRow (it : JVal) : Except PyErr Row :=
  let sym := safe_get it "name"
  let a0 := safe_get it "a"
  let b0 := safe_get it "b"
  if notTruthyOpt sym || a0.isNone || b0.isNone then
    match it with
    | JVal.obj l =>
      Except.ok ⟨sym, dictGetD l "ask" a0, dictGetD l "bid" b0, guess_funding l⟩
    | _ => Except.error PyErr.attributeError
  else
    match it with
    | JVal.obj l => Except.ok ⟨sym, a0, b0, guess_funding l⟩
    | _ => Except.error PyErr.attributeError

/-- Exchange-name derivation from a section key (server.py lines 88–90):
lower-case, delete the tokens `perp`/`swap`/`futures`, strip `"_ "`, delete
`spot`, and fall back to the lower-cased key when empty. -/
def deriveExch (key : String) : String :=
  let name_lc := lowerStr key
  let e1 := removeAllStr (removeAllStr (removeAllStr name_lc "perp") "swap") "futures"
  let e2 := removeAllStr (stripUS e1) "spot"
  if e2 = "" then name_lc else e2

/-- Does the lower-cased key contain one of the section tags
(`any(tag in name_lc for tag in ("perp","swap","futures"))`)? -/
def hasSectionTag (name_lc : String) : Bool :=
  containsTok name_lc "perp" || containsTok name_lc "swap" || containsTok name_lc "futures"

/-- Python `out[k] = v` on a dict rendered as an association list: overwrite
in place if the key exists, else append. -/
def dictSet (m : List (String × List Row)) (k : String) (v : List Row) :
    List (String × List Row) :=
  match m with
  | [] => [(k, v)]
  | (k', v') :: rest =>
    if k' == k then (k', v) :: rest else (k', v') :: dictSet rest k v

/-- The body of the `for key, val in data.items()` loop of
`parse_perp_sections` (server.py lines 78–102), one entry at a time.
An exception raised by a row aborts the whole call, hence `Except`. -/
def parseSection (out : List (String × List Row)) (entry : String × JVal) :
    Except PyErr (List (String × List Row)) :=
  match entry.2 with
  | JVal.obj vl =>
    let name_lc := lowerStr entry.1
    if hasSectionTag name_lc then
      match dictGet vl "list" with
      | some (JVal.arr lst) => do
        let rows ← lst.mapM parseRow
        pure (dictSet out (deriveExch entry.1) rows)
      | _ => pure out
    else pure out
  | _ => pure out

/-- The normalizer `parse_perp_sections(j)` from server.py (lines 67–103). `j.get("data")`
raises `AttributeError` when the decoded document is not a dict;
`data = j.get("data") or j` falls back to `j` when the `data` field is
absent, `null`, or falsy; a non-dict `data` yields the empty mapping. -/
def parse_perp_sections (j : JVal) : Except PyErr (List (String × List Row)) :=
  match j with
  | JVal.obj jl =>
    let data := match dictGet jl "data" with
      | some v => if truthy v then v else j
      | none => j
    match data with
    | JVal.obj entries => entries.foldlM parseSection []
    | _ => Except.ok []
  | _ => Except.error PyErr.attributeError

/-! Section: TimeSeriesStore: bounded ring buffers and the fetch-loop write path -/

/-- Capacity of each per-key price series (`deque(maxlen=6000)`). -/
def Cp : ℕ := 6000

/-- Capacity of each per-key funding series (`deque(maxlen=14400)`). -/
def Cf : ℕ := 14400

/-- Python `deque.append` on a `deque(maxlen=C)`: append at the tail and, on
overflow, evict from the front down to the capacity (for a deque built by
appends this evicts exactly the single oldest element). -/
def dappend {α : Type} (C : ℕ) (xs : List α) (x : α) : List α :=
  let ys := xs ++ [x]
  if C < ys.length then ys.drop (ys.length - C) else ys

/-- A timestamped sample series (one deque). -/
abbrev Series := List (ℤ × ℚ)

/-- Per-symbol map from exchange name to series (`ring[symbol]`). -/
abbrev ExchMap := List (String × Series)

/-- Equality of symbols. A symbol key is whatever object the row's `name`
field held (Python uses it directly as a dict key); structural equality of
`JVal` mirrors Python `==` on decoded JSON. -/
def jvalBeq : JVal → JVal → Bool
  | JVal.null, JVal.null => true
  | JVal.bool a, JVal.bool b => a == b
  | JVal.num a, JVal.num b => a == b
  | JVal.str a, JVal.str b => a == b
  | JVal.arr a, JVal.arr b =>
    let rec goList : List JVal → List JVal → Bool
      | [], [] => true
      | x :: xs, y :: ys => jvalBeq x y && goList xs ys
      | _, _ => false
    goList a b
  | JVal.obj a, JVal.obj b =>
    let rec goObj : List (String × JVal) → List (String × JVal) → Bool
      | [], [] => true
      | x :: xs, y :: ys => x.1 == y.1 && jvalBeq x.2 y.2 && goObj xs ys
      | _, _ => false
    goObj a b
  | _, _ => false

/-- Equality of optional symbols (Python `None` equals only `None`). -/
def symBeq (a b : Option JVal) : Bool :=
  match a, b with
  | none, none => true
  | some x, some y => jvalBeq x y
  | _, _ => false

/-- The whole store for one ring (symbol → exchange → series), in insertion
order, as `defaultdict(lambda: defaultdict(lambda: deque(maxlen=C)))`. -/
abbrev StoreMap := List ((Option JVal) × ExchMap)

/-- Python `defaultdict` access-and-update on an association list: update the value
at the key if present (in place), else append the key with the updated
default. -/
def updAssoc {κ β : Type} (keq : κ → κ → Bool) (m : List (κ × β)) (k : κ)
    (dflt : β) (f : β → β) : List (κ × β) :=
  match m with
  | [] => [(k, f dflt)]
  | (k', v') :: rest =>
    if keq k' k then (k', f v') :: rest else (k', v') :: updAssoc keq rest k dflt f

/-- The store write `ring[sym][exch].append(pt)` with per-series capacity `C`. -/
def storeAppend (C : ℕ) (m : StoreMap) (sym : Option JVal) (exch : String)
    (pt : ℤ × ℚ) : StoreMap :=
  updAssoc symBeq m sym [] (fun em => updAssoc (· == ·) em exch [] (fun s => dappend C s pt))

/-- The per-row store update of `fetch_loop` (server.py lines 119–125): a
price point is appended only when `mid_from_bid_ask` yields a mid, a funding
point only when the row's funding is present; a row with neither leaves both
rings untouched. -/
def fetch_row_update (prices funding : StoreMap) (ts : ℤ) (exch : String)
    (row : Row) : StoreMap × StoreMap :=
  let prices' := match mid_from_bid_ask row.b row.a with
    | some mid => storeAppend Cp prices row.name exch (ts, mid)
    | none => prices
  let funding' := match row.funding with
    | some fr => storeAppend Cf funding row.name exch (ts, fr)
    | none => funding
  (prices', funding')

/-! Section: PairSelector -/

/-- The recency key `exch_dict[k][-1][0] if exch_dict[k] else 0`: the timestamp of the most
recent sample of a series, an empty series ranking as 0. -/
def lastTs (s : Series) : ℤ :=
  match s.getLast? with
  | some p => p.1
  | none => 0

/-- The sort key of `pick_pair_exchanges` for exchange `k` of a symbol. -/
def recencyOf (m : ExchMap) (k : String) : ℤ :=
  lastTs (match m.find? (fun p => p.1 == k) with
          | some p => p.2
          | none => [])

/-- The comparison of the key sort in `pick_pair_exchanges` (line 159):
`k1` may precede `k2` when its most-recent-sample timestamp is at least as
large (`reverse=True` on the recency key). -/
def recencyLe (m : ExchMap) (k1 k2 : String) : Bool :=
  decide (recencyOf m k2 ≤ recencyOf m k1)

/-- The selector `pick_pair_exchanges(exch_dict)` from server.py (lines 149–161): prefer
`("binance", "okx")` when both are present; otherwise, with at least two
exchanges, stably sort the keys by most-recent-sample timestamp descending
(`sort` with `reverse=True` is stable, as is `mergeSort` here) and take the
first two; else `(None, None)`. The match fallback on fewer than two sorted
keys is unreachable because sorting preserves length. -/
def pick_pair_exchanges (m : ExchMap) : Option String × Option String :=
  if (m.map Prod.fst).contains "binance" && (m.map Prod.fst).contains "okx" then
    (some "binance", some "okx")
  else if 2 ≤ (m.map Prod.fst).length then
    match (m.map Prod.fst).mergeSort (recencyLe m) with
    | k0 :: k1 :: _ => (some k0, some k1)
    | _ => (none, none)
  else (none, none)

/-! Section: StatsEngine and the query path of `api_data` -/

/-- Python list slice `l[start:]` for an integer `start` (negative indices
count from the end and clamp at 0). The code uses `[-window:]`. -/
def pySliceFrom {α : Type} (start : ℤ) (l : List α) : List α :=
  if start < 0 then l.drop ((l.length : ℤ) + start).toNat
  else l.drop start.toNat

/-- The `seriesA = list(exch_map[exA])[-window:]` selection (line 224). -/
def recentSlice (window : ℤ) (s : Series) : Series := pySliceFrom (-window) s

/-- The rank-paired historical spread samples (server.py lines 226–233):
for `i = 0 … min(len A, len B) - 1`, pair the `i`-th most recent point of
each side; a pair with non-positive average mid contributes no sample. -/
def spreadSamples (sA sB : Series) : List ℚ :=
  (List.range (min sA.length sB.length)).filterMap (fun i =>
    match sA.reverse.get? i, sB.reverse.get? i with
    | some pA, some pB =>
      let avgm := (pA.2 + pB.2) / 2
      if 0 < avgm then some ((pB.2 - pA.2) / avgm * 100) else none
    | _, _ => none)

/-- Modelled from the spec (§4.4 step 2): the same sample sequence worded as
the spec does — zip the two series most-recent-first by rank, keep the pairs
with positive average mid, and map each to its percentage spread. Compared
with the source-derived `spreadSamples` in claim C3. -/
def specSpreadSamples (sA sB : Series) : List ℚ :=
  ((sA.reverse.zip sB.reverse).filter (fun p => decide (0 < (p.1.2 + p.2.2) / 2))).map
    (fun p => (p.2.2 - p.1.2) / ((p.1.2 + p.2.2) / 2) * 100)

/-- The mean/std/sample-count computation of `api_data`
(server.py lines 235–244): absent on no samples, `(x, 0.0, 1)` on one
sample, and sample mean with Bessel-corrected standard deviation otherwise.
The standard deviation is `math.sqrt` of the variance, hence lives in `ℝ`. -/
noncomputable def statsOf (spreads : List ℚ) : Option ℚ × Option ℝ × ℕ :=
  if spreads.length = 0 then (none, none, 0)
  else if spreads.length = 1 then (some spreads.headI, some 0, 1)
  else
    let n := spreads.length
    let mu := spreads.sum / (n : ℚ)
    let var := (spreads.map (fun x => (x - mu) ^ 2)).sum / ((n : ℚ) - 1)
    (some mu, some (Real.sqrt (var : ℝ)), n)

/-- The z-score computation (server.py lines 246–248): defined exactly when
the std is present and exceeds `1e-9` and the mean is present. -/
noncomputable def zscoreOf (spread_pct : ℚ) (avg : Option ℚ) (std : Option ℝ) :
    Option ℝ :=
  match std, avg with
  | some s, some a => if (1 / 1000000000 : ℝ) < s then some (((spread_pct : ℝ) - a) / s) else none
  | _, _ => none

/-- Round-half-to-even on ℚ (Python's `round` on an idealized exact value). -/
def roundHalfEvenQ (q : ℚ) : ℤ :=
  let f := ⌊q⌋
  if q - f < 1 / 2 then f
  else if 1 / 2 < q - f then f + 1
  else if f % 2 = 0 then f else f + 1

/-- Python `round(q, n)` on the idealized rational value. -/
def pyRound (n : ℕ) (q : ℚ) : ℚ :=
  (roundHalfEvenQ (q * (10 : ℚ) ^ n) : ℚ) / (10 : ℚ) ^ n

/-- Round-half-to-even on ℝ, for the z-score's `round(zscore, 3)`. -/
noncomputable def roundHalfEvenR (x : ℝ) : ℤ :=
  let f := ⌊x⌋
  if x - f < 1 / 2 then f
  else if 1 / 2 < x - f then f + 1
  else if f % 2 = 0 then f else f + 1

/-- Python `round(x, 3)` on the idealized real value. -/
noncomputable def pyRound3R (x : ℝ) : ℝ :=
  (roundHalfEvenR (x * 1000) : ℝ) / 1000

/-- One record of the `items` list assembled by `api_data`
(server.py lines 262–273). -/
structure Item : Type where
  symbol : Option JVal
  exA : String
  exB : String
  midA : ℚ
  midB : ℚ
  spread_pct : ℚ
  avg_spread_pct : Option ℚ
  zscore : Option ℝ
  fundingA : Option ℚ
  fundingB : Option ℚ
  funding_avg : Option ℚ
  window_sec : ℤ
  samples : ℕ

/-- The access `f_map.get(ex)` followed by the truthiness test and `[-1][1]` access
(server.py lines 253–256): the latest funding value of one side, absent when
the symbol or exchange is unknown or its deque is empty. -/
def latestFunding (fm : ExchMap) (ex : String) : Option ℚ :=
  match fm.find? (fun p => p.1 == ex) with
  | some p => (p.2.getLast?).map Prod.snd
  | none => none

/-- The per-symbol body of the `for sym, exch_map in list(ring_prices.items())`
loop of `api_data` (server.py lines 203–273): `none` models `continue`. -/
noncomputable def itemFor (window : ℤ) (funding : StoreMap) (sym : Option JVal)
    (exch_map : ExchMap) : Option Item :=
  if exch_map.length < 2 then none else
  match pick_pair_exchanges exch_map with
  | (some exA, some exB) =>
    if exA = "" ∨ exB = "" then none else
    let sA : Series := match exch_map.find? (fun p => p.1 == exA) with
      | some p => p.2
      | none => []
    let sB : Series := match exch_map.find? (fun p => p.1 == exB) with
      | some p => p.2
      | none => []
    match (sA.getLast?).map Prod.snd, (sB.getLast?).map Prod.snd with
    | some midA, some midB =>
      if midA = 0 ∨ midB = 0 then none else
      let avg_mid := (midA + midB) / 2
      if avg_mid ≤ 0 then none else
      let spread_pct := (midB - midA) / avg_mid * 100
      let spreads := spreadSamples (recentSlice window sA) (recentSlice window sB)
      let st := statsOf spreads
      let z := zscoreOf spread_pct st.1 st.2.1
      let f_map : ExchMap := match funding.find? (fun p => symBeq p.1 sym) with
        | some p => p.2
        | none => []
      let fA := latestFunding f_map exA
      let fB := latestFunding f_map exB
      let fvals := [fA, fB].filterMap id
      let fAvg := if fvals.isEmpty then none else some (fvals.sum / fvals.length)
      some
        { symbol := sym
          exA := exA
          exB := exB
          midA := pyRound 10 midA
          midB := pyRound 10 midB
          spread_pct := pyRound 6 spread_pct
          avg_spread_pct := st.1.map (pyRound 6)
          zscore := z.map pyRound3R
          fundingA := fA
          fundingB := fB
          funding_avg := fAvg
          window_sec := window
          samples := st.2.2 }
    | _, _ => none
  | _ => none

/-- The unsorted `items` list of `api_data`. -/
noncomputable def rawItems (window : ℤ) (prices funding : StoreMap) : List Item :=
  prices.filterMap (fun p => itemFor window funding p.1 p.2)

/-- The comparison realizing `key=lambda x: abs(x["spread_pct"])` with
`reverse=True`: `x` may precede `y` when `|x.spread_pct| ≥ |y.spread_pct|`. -/
def absSpreadGe (x y : Item) : Bool := decide (|y.spread_pct| ≤ |x.spread_pct|)

/-- The sort `items.sort(key=lambda x: abs(x["spread_pct"]), reverse=True)`
(server.py line 275): a stable sort by descending absolute current spread. -/
noncomputable def query_items (window : ℤ) (prices funding : StoreMap) : List Item :=
  (rawItems window prices funding).mergeSort absSpreadGe

/-- The semantic content of an `api_data` HTTP response: the status code,
the `ok` flag, the optional `error` message, and the items. -/
structure Resp : Type where
  status : ℕ
  ok : Bool
  error : Option String
  items : List Item

/-- The window-parameter handling of `api_data` (server.py line 198):
`int(request.args.get("window", 300))` — the default 300 when the query
parameter is absent, otherwise Python `int` on the string, whose failure raises
`ValueError`. -/
def parseWindow (arg : Option String) : Except String ℤ :=
  match arg with
  | none => Except.ok 300
  | some s =>
    match pyIntStr s with
    | some n => Except.ok n
    | none => Except.error ("invalid literal for int() with base 10: " ++ s)

/-- The query route `api_data` (server.py lines 169–282): the whole body runs under
`try/except`; the only reachable exception in the model is the window
parameter failing integer conversion (every later arithmetic and indexing
step is guarded in the source), and any caught failure becomes the
`{"ok": False, "error": …}` payload served with status 500, while success is
`{"ok": True, …}` with status 200. -/
noncomputable def api_data (arg : Option String) (prices funding : StoreMap) : Resp :=
  match parseWindow arg with
  | Except.ok w =>
    { status := 200, ok := true, error := none, items := query_items w prices funding }
  | Except.error e =>
    { status := 500, ok := false, error := some e, items := [] }

/-! Section: Helper lemmas -/

/-- Closed form of `dappend`: append, then drop the overflow from the front. -/
theorem dappend_eq_drop {α : Type} (C : ℕ) (l : List α) (x : α) :
    dappend C l x = (l ++ [x]).drop (l.length + 1 - C) := by
  unfold dappend
  simp only [List.length_append, List.length_cons, List.length_nil, Nat.zero_add]
  split
  · rfl
  · have h : l.length + 1 - C = 0 := by omega
    rw [h, List.drop_zero]

/-- A series built by appends through a capacity-`C` ring holds exactly the
last `C` elements of the appended sequence, in order. -/
theorem foldl_dappend_eq_drop {α : Type} (C : ℕ) (l : List α) :
    l.foldl (dappend C) [] = l.drop (l.length - C) := by
  induction l using List.reverseRecOn with
  | nil => simp
  | append_singleton l x ih =>
    rw [List.foldl_append, List.foldl_cons, List.foldl_nil, ih, dappend_eq_drop,
      List.drop_append_eq_append_drop, List.drop_append_eq_append_drop,
      List.drop_drop]
    simp only [List.length_drop, List.length_append, List.length_cons,
      List.length_nil, Nat.zero_add]
    have h1 : l.length - C + (l.length - (l.length - C) + 1 - C)
        = l.length + 1 - C := by omega
    have h2 : l.length - (l.length - C) + 1 - C - (l.length - (l.length - C))
        = l.length + 1 - C - l.length := by omega
    rw [h1, h2]

/-- Modelled from the spec as amended by claim C6: the per-candidate
extraction — a direct numeric parse, and on failure the removal of *every*
percent sign (removing all occurrences of the single character `%` is a
filter) followed by a parse and a division by 100. -/
def candFundingAmendedModel (d : List (String × JVal)) (k : String) : Option ℚ :=
  match dictGet d k with
  | none => none
  | some v =>
    match pyFloat v with
    | some q => some q
    | none =>
      match v with
      | JVal.str s =>
        match pyFloatStr ⟨s.toList.filter (fun c => c != '%')⟩ with
        | some q => some (q / 100)
        | none => none
      | _ => none

/-- Modelled from the spec as amended by claim C6: walk the candidate keys
by explicit recursion, the first candidate yielding a number wins, absent
otherwise. -/
def guess_funding_amendedModel (d : List (String × JVal)) : Option ℚ :=
  go fundingKeys
where
  go : List String → Option ℚ
  | [] => none
  | k :: ks =>
    match candFundingAmendedModel d k with
    | some q => some q
    | none => go ks

/-- Removing all occurrences of a single-character pattern is a filter. -/
theorem removeSeqAux_single_eq_filter (p : Char) :
    ∀ (n : ℕ) (cs : List Char), cs.length ≤ n →
      removeSeqAux [p] n cs = cs.filter (fun c => c != p) := by
  intro n
  induction n with
  | zero =>
    intro cs h
    have : cs = [] := List.eq_nil_of_length_eq_zero (Nat.le_zero.mp h)
    subst this
    rfl
  | succ n ih =>
    intro cs h
    cases cs with
    | nil => rfl
    | cons c cs' =>
      have hlen : cs'.length ≤ n := by simpa using h
      by_cases hpc : p = c
      · subst hpc
        have hpre : [p].isPrefixOf (p :: cs') = true := by
          simp [List.isPrefixOf]
        simp only [removeSeqAux, hpre, if_true, List.length_cons,
          Nat.add_sub_cancel, List.drop_zero, List.filter_cons]
        have : (p != p) = false := by simp
        rw [this]
        simpa using ih cs' hlen
      · have hpre : [p].isPrefixOf (c :: cs') = false := by
          simp [List.isPrefixOf, hpc]
        simp only [removeSeqAux, hpre, if_false, Bool.false_eq_true,
          List.filter_cons]
        have : (c != p) = true := by simp [hpc]; exact fun hc => hpc hc.symm
        rw [this]
        simp only [if_true]
        exact congrArg (c :: ·) (ih cs' hlen)

/-- Removal via `str.replace` of every percent sign is the percent filter. -/
theorem removeAllStr_percent_eq_filter (s : String) :
    removeAllStr s "%" = ⟨s.toList.filter (fun c => c != '%')⟩ :=
  congrArg String.mk
    (removeSeqAux_single_eq_filter '%' s.toList.length s.toList le_rfl)

/-- The source per-candidate extraction agrees with the amended, spec-worded
one (the only difference is `replace("%","")` versus the percent filter,
and those coincide). -/
theorem candFunding_eq_amended (d : List (String × JVal)) (k : String) :
    candFunding d k = candFundingAmendedModel d k := by
  cases hdg : dictGet d k with
  | none => simp [candFunding, candFundingAmendedModel, hdg]
  | some v =>
    cases hpf : pyFloat v with
    | some q => simp [candFunding, candFundingAmendedModel, hdg, hpf]
    | none =>
      cases v with
      | str s =>
        simp only [candFunding, candFundingAmendedModel, hdg, hpf, percentFallback,
          pyFloatStr, removeAllStr_percent_eq_filter]
        cases pyFloatRep (⟨s.toList.filter (fun c => c != '%')⟩ : String) with
        | none => rfl
        | some r => rfl
      | null => simp [candFunding, candFundingAmendedModel, hdg, hpf, percentFallback]
      | bool b => simp [candFunding, candFundingAmendedModel, hdg, hpf, percentFallback]
      | num q => simp [candFunding, candFundingAmendedModel, hdg, hpf, percentFallback]
      | arr l => simp [candFunding, candFundingAmendedModel, hdg, hpf, percentFallback]
      | obj l => simp [candFunding, candFundingAmendedModel, hdg, hpf, percentFallback]

/-- The candidate walk of `guess_funding` agrees with the amended
explicit-recursion walk on every key list. -/
theorem guess_funding_go_eq (d : List (String × JVal)) :
    ∀ ks : List String,
      ks.findSome? (candFunding d) = guess_funding_amendedModel.go d ks := by
  intro ks
  induction ks with
  | nil => rfl
  | cons k ks ih =>
    rw [List.findSome?_cons, candFunding_eq_amended]
    cases h : candFundingAmendedModel d k with
    | none => simpa [guess_funding_amendedModel.go, h] using ih
    | some q => simp [guess_funding_amendedModel.go, h]

/-! Section: Claim theorems -/

/-- Claim C1. The claim states that `parse_perp_sections` returns a mapping
without raising on every upstream document, including malformed ones. The
code violates this: a section whose list contains a non-object element
reaches `it.get("ask", a)` and raises `AttributeError`, and a non-dict
document root raises already at `j.get("data")`. This theorem evaluates the
embedded code at both failing inputs. -/
theorem C1_parse_perp_sections_raises_on_malformed :
    parse_perp_sections
        (JVal.obj [("xperp", JVal.obj [("list", JVal.arr [JVal.num 42])])])
      = Except.error PyErr.attributeError ∧
    parse_perp_sections (JVal.arr []) = Except.error PyErr.attributeError :=
  ⟨rfl, rfl⟩

/-- Claim C2 (counterexample). The claim states that the row lists returned
by `parse_perp_sections` contain no row lacking both a usable price and a
usable funding value. In fact the function appends every row: on a section
with the single list element `{}` the returned mapping holds a row whose
bid/ask yield no mid and whose funding is absent. -/
theorem C2_counterexample_row_not_dropped :
    parse_perp_sections
        (JVal.obj [("aperp", JVal.obj [("list", JVal.arr [JVal.obj []])])])
      = Except.ok [("a", [⟨none, none, none, none⟩])] ∧
    mid_from_bid_ask (Row.mk none none none none).b (Row.mk none none none none).a = none ∧
    (Row.mk none none none none).funding = none :=
  ⟨rfl, rfl, rfl⟩

/-- Claim C2 (amended): the normalizer retains such rows, but they are
dropped at ingestion — the fetch loop's per-row store update appends neither
a price point nor a funding point for a row lacking both, leaving both rings
unchanged. -/
theorem C2_amended_useless_row_no_store_effect
    (prices funding : StoreMap) (ts : ℤ) (exch : String) (row : Row)
    (hmid : mid_from_bid_ask row.b row.a = none) (hfr : row.funding = none) :
    fetch_row_update prices funding ts exch row = (prices, funding) := by
  unfold fetch_row_update
  rw [hmid, hfr]

/-- Witness for the amended C2 at a concrete useless row and store. -/
theorem C2_amended_useless_row_no_store_effect_witness :
    fetch_row_update [] [] 0 "ex" ⟨none, none, none, none⟩ = ([], []) :=
  C2_amended_useless_row_no_store_effect [] [] 0 "ex" ⟨none, none, none, none⟩ rfl rfl

/-- Claim C5: `mid_from_bid_ask b a` returns `some m` exactly when both
inputs parse as numbers `qb, qa` with `0 < qb`, `0 < qa`, `qb ≤ qa`, and
then `m = (qa + qb)/2`; in every other case (in particular `a < b`, a
non-positive side, or non-numeric input) the result is absent. The model is
a total function, so no exception can escape. -/
theorem C5_mid_from_bid_ask_characterization (b a : Option JVal) (m : ℚ) :
    mid_from_bid_ask b a = some m ↔
      ∃ qb qa, pyFloatOpt b = some qb ∧ pyFloatOpt a = some qa ∧
        0 < qb ∧ 0 < qa ∧ qb ≤ qa ∧ m = (qa + qb) / 2 := by
  unfold mid_from_bid_ask
  cases hb : pyFloatOpt b with
  | none => simp [hb]
  | some qb =>
    cases ha : pyFloatOpt a with
    | none => simp [hb, ha]
    | some qa =>
      by_cases h : 0 < qb ∧ 0 < qa ∧ qb ≤ qa
      · simp only [hb, ha, if_pos h, Option.some.injEq]
        constructor
        · rintro rfl
          exact ⟨qb, qa, rfl, rfl, h.1, h.2.1, h.2.2, rfl⟩
        · rintro ⟨qb', qa', hqb, hqa, _, _, _, hm⟩
          cases hqb; cases hqa; exact hm.symm
      · simp only [hb, ha, if_neg h]
        constructor
        · intro hc; exact absurd hc (by simp)
        · rintro ⟨qb', qa', hqb, hqa, h1, h2, h3, _⟩
          cases hqb; cases hqa; exact absurd ⟨h1, h2, h3⟩ h

/-- Claim C7: the price ring holds at most `Cp = 6000` samples per key and
the funding ring at most `Cf = 14400`, with `Cf > Cp`; `dappend` appends at
the tail and on overflow evicts exactly from the front (FIFO), so a series
built by appending any sequence of points holds exactly the capacity-many
most recent points in insertion order. -/
theorem C7_ring_capacity_and_fifo :
    Cp = 6000 ∧ Cf = 14400 ∧ Cp < Cf ∧
    (∀ l : List (ℤ × ℚ),
      l.foldl (dappend Cp) [] = l.drop (l.length - Cp) ∧
      (l.foldl (dappend Cp) []).length = min l.length Cp) ∧
    (∀ l : List (ℤ × ℚ),
      l.foldl (dappend Cf) [] = l.drop (l.length - Cf) ∧
      (l.foldl (dappend Cf) []).length = min l.length Cf) ∧
    (∀ (l : List (ℤ × ℚ)) (x : ℤ × ℚ),
      dappend Cp l x = (l ++ [x]).drop (l.length + 1 - Cp)) := by
  refine ⟨rfl, rfl, by norm_num [Cp, Cf], ?_, ?_, ?_⟩
  · intro l
    refine ⟨foldl_dappend_eq_drop Cp l, ?_⟩
    rw [foldl_dappend_eq_drop Cp l, List.length_drop]
    omega
  · intro l
    refine ⟨foldl_dappend_eq_drop Cf l, ?_⟩
    rw [foldl_dappend_eq_drop Cf l, List.length_drop]
    omega
  · intro l x
    exact dappend_eq_drop Cp l x

/-- Claim C8: `api_data` is total — every request yields either the success
payload (ok flag set, status 200, no error) or the structured failure
payload (ok flag cleared, status 500, an error message); in particular a
window parameter that fails Python's integer conversion takes the failure
branch. -/
theorem C8_api_data_failure_payload :
    (∀ (arg : Option String) (prices funding : StoreMap),
      ((api_data arg prices funding).ok = true ∧
        (api_data arg prices funding).status = 200 ∧
        (api_data arg prices funding).error = none) ∨
      ((api_data arg prices funding).ok = false ∧
        (api_data arg prices funding).status = 500 ∧
        (api_data arg prices funding).error ≠ none)) ∧
    (∀ (s : String) (prices funding : StoreMap), pyIntStr s = none →
      (api_data (some s) prices funding).ok = false ∧
      (api_data (some s) prices funding).status = 500 ∧
      (api_data (some s) prices funding).error ≠ none) := by
  constructor
  · intro arg prices funding
    unfold api_data
    cases harg : parseWindow arg with
    | ok w => left; exact ⟨rfl, rfl, rfl⟩
    | error e => right; exact ⟨rfl, rfl, by simp⟩
  · intro s prices funding hs
    simp [api_data, parseWindow, hs]

/-- Witness for C8 at the concrete non-numeric window parameter `"abc"`. -/
theorem C8_api_data_failure_payload_witness :
    pyIntStr "abc" = none ∧
    (api_data (some "abc") [] []).ok = false ∧
    (api_data (some "abc") [] []).status = 500 :=
  ⟨by decide, (C8_api_data_failure_payload.2 "abc" [] [] (by decide)).1,
    (C8_api_data_failure_payload.2 "abc" [] [] (by decide)).2.1⟩

/-- Claim C6 (counterexample): on the row `{"fundingRate": "%5"}` the source
yields `0.05` — `str.replace("%","")` removes the *embedded* percent sign —
while the extraction the claim describes (strip a trailing percent sign only)
yields no number for this candidate, and hence no funding at all. -/
theorem C6_counterexample_embedded_percent :
    guess_funding [("fundingRate", JVal.str "%5")] = some (1 / 20) ∧
    guess_funding_specModel [("fundingRate", JVal.str "%5")] = none := by
  constructor
  · have h : guess_funding [("fundingRate", JVal.str "%5")]
        = some (repVal ⟨false, 5, 0, 0⟩ / 100) := rfl
    rw [h]
    norm_num [repVal]
  · rfl

/-- Claim C6 (amended): funding extraction tries the fixed ordered candidate
list; for each present candidate a direct numeric parse is attempted first,
and if that fails *every* percent sign is removed from the string form and
the parse of the remainder is divided by 100; the first candidate yielding a
number wins, otherwise funding is absent. A row lacking the primary field
but holding the alternate field `"funding"` with value `"0.01%"` yields
funding `0.0001`. -/
theorem C6_amended_funding_extraction :
    (∀ d : List (String × JVal), guess_funding d = guess_funding_amendedModel d) ∧
    guess_funding [("funding", JVal.str "0.01%")] = some (1 / 10000) := by
  constructor
  · intro d
    exact guess_funding_go_eq d fundingKeys
  · have h : guess_funding [("funding", JVal.str "0.01%")]
        = some (repVal ⟨false, 1, 2, 0⟩ / 100) := rfl
    rw [h]
    norm_num [repVal]

/-- Claim C4: pair selection. If `binance` and `okx` both report, the pair
is exactly `("binance", "okx")` regardless of recency; with fewer than two
exchanges the result is `(absent, absent)`; otherwise the selected pair
consists of two distinct reporting exchanges ranked first and second by the
timestamp of their most recent sample (an empty series ranking as 0), most
recent first, and every other reporting exchange ranks at or below the
second — ties resolved by the stable order of the sort. -/
theorem C4_pick_pair_selection (m : ExchMap) :
    (("binance" ∈ m.map Prod.fst ∧ "okx" ∈ m.map Prod.fst) →
      pick_pair_exchanges m = (some "binance", some "okx")) ∧
    ((m.map Prod.fst).length < 2 → pick_pair_exchanges m = (none, none)) ∧
    ((m.map Prod.fst).Nodup →
      ¬("binance" ∈ m.map Prod.fst ∧ "okx" ∈ m.map Prod.fst) →
      2 ≤ (m.map Prod.fst).length →
      ∃ k0 k1, pick_pair_exchanges m = (some k0, some k1) ∧
        k0 ∈ m.map Prod.fst ∧ k1 ∈ m.map Prod.fst ∧ k0 ≠ k1 ∧
        recencyOf m k1 ≤ recencyOf m k0 ∧
        ∀ k ∈ m.map Prod.fst, k ≠ k0 → k ≠ k1 → recencyOf m k ≤ recencyOf m k1) := by
  refine ⟨?_, ?_, ?_⟩
  · rintro ⟨h1, h2⟩
    have hb : (m.map Prod.fst).contains "binance" = true := by
      simp [List.contains, h1]
    have ho : (m.map Prod.fst).contains "okx" = true := by
      simp [List.contains, h2]
    unfold pick_pair_exchanges
    rw [hb, ho]
    rfl
  · intro hlen
    have hcond : ((m.map Prod.fst).contains "binance"
        && (m.map Prod.fst).contains "okx") = false := by
      by_contra hc
      rw [Bool.not_eq_false, Bool.and_eq_true] at hc
      have h1 : "binance" ∈ m.map Prod.fst := by
        have := hc.1; simpa [List.contains] using this
      have h2 : "okx" ∈ m.map Prod.fst := by
        have := hc.2; simpa [List.contains] using this
      cases hk : m.map Prod.fst with
      | nil => rw [hk] at h1; exact absurd h1 (List.not_mem_nil _)
      | cons x xs =>
        rw [hk] at h1 h2 hlen
        rw [List.length_cons] at hlen
        have hxs : xs = [] := List.eq_nil_of_length_eq_zero (by omega)
        subst hxs
        have e1 : "binance" = x := by simpa using h1
        have e2 : "okx" = x := by simpa using h2
        exact absurd (e1.trans e2.symm) (by decide)
    unfold pick_pair_exchanges
    rw [hcond]
    simp only [Bool.false_eq_true, if_false]
    rw [if_neg (by omega : ¬ 2 ≤ (m.map Prod.fst).length)]
  · intro hnd hno hlen
    have hcond : ((m.map Prod.fst).contains "binance"
        && (m.map Prod.fst).contains "okx") = false := by
      by_contra hc
      rw [Bool.not_eq_false, Bool.and_eq_true] at hc
      refine hno ⟨?_, ?_⟩
      · have := hc.1; simpa [List.contains] using this
      · have := hc.2; simpa [List.contains] using this
    have htrans : ∀ (a b c : String),
        recencyLe m a b → recencyLe m b c → recencyLe m a c := by
      intro a b c hab hbc
      simp only [recencyLe, decide_eq_true_eq] at hab hbc ⊢
      exact le_trans hbc hab
    have htotal : ∀ (a b : String), recencyLe m a b || recencyLe m b a := by
      intro a b
      simp only [recencyLe, Bool.or_eq_true, decide_eq_true_eq]
      exact le_total _ _
    have hsorted := @List.sorted_mergeSort String (recencyLe m) htrans htotal (m.map Prod.fst)
    have hperm := List.mergeSort_perm (m.map Prod.fst) (recencyLe m)
    have hlen2 : 2 ≤ ((m.map Prod.fst).mergeSort (recencyLe m)).length := by
      rw [List.length_mergeSort]; exact hlen
    rcases hms : (m.map Prod.fst).mergeSort (recencyLe m) with _ | ⟨k0, t⟩
    · rw [hms] at hlen2; simp at hlen2
    rcases t with _ | ⟨k1, rest⟩
    · rw [hms] at hlen2; simp at hlen2
    rw [hms] at hsorted hperm
    have hndms : (k0 :: k1 :: rest).Nodup := hperm.nodup_iff.mpr hnd
    refine ⟨k0, k1, ?_, ?_, ?_, ?_, ?_, ?_⟩
    · unfold pick_pair_exchanges
      rw [hcond]
      simp only [Bool.false_eq_true, if_false]
      rw [if_pos hlen, hms]
    · exact hperm.mem_iff.mp (List.mem_cons_self _ _)
    · exact hperm.mem_iff.mp (List.mem_cons_of_mem _ (List.mem_cons_self _ _))
    · intro he
      exact (List.nodup_cons.mp hndms).1 (he ▸ List.mem_cons_self _ _)
    · have h01 := (List.pairwise_cons.mp hsorted).1 k1 (List.mem_cons_self _ _)
      simpa [recencyLe, decide_eq_true_eq] using h01
    · intro k hk hk0 hk1
      have hkms : k = k0 ∨ k = k1 ∨ k ∈ rest := by
        have hmem := hperm.mem_iff.mpr hk
        simpa using hmem
      have hkrest : k ∈ rest := by
        rcases hkms with h | h | h
        · exact absurd h hk0
        · exact absurd h hk1
        · exact h
      have htail := (List.pairwise_cons.mp hsorted).2
      have h1k := (List.pairwise_cons.mp htail).1 k hkrest
      simpa [recencyLe, decide_eq_true_eq] using h1k

/-- Witness for C4 at a store where both preferred exchanges report. -/
theorem C4_pick_pair_selection_witness :
    pick_pair_exchanges [("binance", []), ("okx", []), ("bybit", [])]
      = (some "binance", some "okx") :=
  (C4_pick_pair_selection [("binance", []), ("okx", []), ("bybit", [])]).1
    ⟨by decide, by decide⟩

/-- Claim C10: the window parameter `0` does not produce an empty recent
selection — the Python slice `[-0:]` is `[0:]`, the whole retained series —
so the rolling statistics and the z-score at window `0` are computed over
all stored points of each selected exchange, not absent with zero samples. -/
theorem C10_window_zero_uses_full_series :
    (∀ l : Series, recentSlice 0 l = l) ∧
    (∀ sA sB : Series,
      spreadSamples (recentSlice 0 sA) (recentSlice 0 sB) = spreadSamples sA sB ∧
      statsOf (spreadSamples (recentSlice 0 sA) (recentSlice 0 sB))
        = statsOf (spreadSamples sA sB) ∧
      ∀ sp : ℚ,
        zscoreOf sp (statsOf (spreadSamples (recentSlice 0 sA) (recentSlice 0 sB))).1
            (statsOf (spreadSamples (recentSlice 0 sA) (recentSlice 0 sB))).2.1
          = zscoreOf sp (statsOf (spreadSamples sA sB)).1
            (statsOf (spreadSamples sA sB)).2.1) := by
  have hslice : ∀ l : Series, recentSlice 0 l = l := by
    intro l
    unfold recentSlice pySliceFrom
    norm_num
  refine ⟨hslice, ?_⟩
  intro sA sB
  rw [hslice sA, hslice sB]
  exact ⟨rfl, rfl, fun _ => rfl⟩

/-- Claim C9: in every query response the item list is ordered by descending
absolute current spread — whenever a record `r1` precedes a record `r2`,
`|r1.spread_pct| ≥ |r2.spread_pct|`. -/
theorem C9_items_sorted_by_abs_spread (window : ℤ) (prices funding : StoreMap) :
    (query_items window prices funding).Pairwise
      (fun r1 r2 => |r2.spread_pct| ≤ |r1.spread_pct|) := by
  have htrans : ∀ a b c : Item, absSpreadGe a b → absSpreadGe b c → absSpreadGe a c := by
    intro a b c hab hbc
    simp only [absSpreadGe, decide_eq_true_eq] at hab hbc ⊢
    exact le_trans hbc hab
  have htotal : ∀ a b : Item, absSpreadGe a b || absSpreadGe b a := by
    intro a b
    simp only [absSpreadGe, Bool.or_eq_true, decide_eq_true_eq]
    exact le_total _ _
  have h := @List.sorted_mergeSort Item absSpreadGe htrans htotal
    (rawItems window prices funding)
  unfold query_items
  exact h.imp (fun hxy => by simpa [absSpreadGe, decide_eq_true_eq] using hxy)

/-- Indexed rank-pairing over two lists is pairing by `zip`: the
range/lookup form used by the source loop coincides with zipping. -/
theorem range_filterMap_pair {β : Type} (u : List (ℤ × ℚ)) (v : List (ℤ × ℚ))
    (h : (ℤ × ℚ) → (ℤ × ℚ) → Option β) :
    (List.range (min u.length v.length)).filterMap (fun i =>
      match u.get? i, v.get? i with
      | some pA, some pB => h pA pB
      | _, _ => none)
    = (u.zip v).filterMap (fun p => h p.1 p.2) := by
  induction u generalizing v with
  | nil => simp
  | cons a u ih =>
    cases v with
    | nil => simp
    | cons b v =>
      have hmin : min (a :: u).length (b :: v).length = min u.length v.length + 1 := by
        simp only [List.length_cons]
        omega
      rw [hmin, List.range_succ_eq_map, List.filterMap_cons, List.zip_cons_cons,
        List.filterMap_cons, List.filterMap_map]
      simp only [List.get?_cons_zero, List.get?_cons_succ, Function.comp]
      cases h a b with
      | none => exact ih v
      | some c => exact congrArg (c :: ·) (ih v)

/-- A `filterMap` whose body is an if-some is a filter followed by a map. -/
theorem filterMap_if_eq_filter_map {α β : Type} (P : α → Prop) [DecidablePred P]
    (g : α → β) (l : List α) :
    l.filterMap (fun x => if P x then some (g x) else none)
      = (l.filter (fun x => decide (P x))).map g := by
  induction l with
  | nil => rfl
  | cons a l ih =>
    rw [List.filterMap_cons, List.filter_cons]
    by_cases h : P a
    · simp [h, ih]
    · simp [h, ih]

/-- The source's rank-paired sample loop equals the spec's zip/filter/map
description of the same sequence. -/
theorem spreadSamples_eq_spec (sA sB : Series) :
    spreadSamples sA sB = specSpreadSamples sA sB := by
  simp only [spreadSamples, specSpreadSamples]
  rw [show min sA.length sB.length = min sA.reverse.length sB.reverse.length by simp]
  rw [range_filterMap_pair sA.reverse sB.reverse
    (fun pA pB => if 0 < (pA.2 + pB.2) / 2
      then some ((pB.2 - pA.2) / ((pA.2 + pB.2) / 2) * 100) else none)]
  exact filterMap_if_eq_filter_map (fun p => 0 < (p.1.2 + p.2.2) / 2)
    (fun p => (p.2.2 - p.1.2) / ((p.1.2 + p.2.2) / 2) * 100) (sA.reverse.zip sB.reverse)

/-- The mean computed by `statsOf` is the arithmetic mean of the samples. -/
theorem statsOf_mean (s : List ℚ) :
    (statsOf s).1 = if s.length = 0 then none else some (s.sum / s.length) := by
  unfold statsOf
  rcases s with _ | ⟨x, s'⟩
  · simp
  · rcases s' with _ | ⟨y, s''⟩
    · norm_num [List.headI]
    · simp [List.length_cons]

/-- The standard deviation computed by `statsOf`: absent on no samples, `0`
on one, and the square root of the Bessel-corrected variance otherwise. -/
theorem statsOf_std (s : List ℚ) :
    (statsOf s).2.1 = if s.length = 0 then none
      else if s.length = 1 then some (0 : ℝ)
      else some (Real.sqrt
        (((s.map (fun x => (x - s.sum / (s.length : ℚ)) ^ 2)).sum
          / ((s.length : ℚ) - 1) : ℚ))) := by
  unfold statsOf
  rcases s with _ | ⟨x, s'⟩
  · simp
  · rcases s' with _ | ⟨y, s''⟩
    · simp
    · simp [List.length_cons]

/-- The sample count reported by `statsOf` is the number of spread samples. -/
theorem statsOf_samples (s : List ℚ) : (statsOf s).2.2 = s.length := by
  unfold statsOf
  rcases s with _ | ⟨x, s'⟩
  · simp
  · rcases s' with _ | ⟨y, s''⟩
    · simp
    · simp [List.length_cons]

/-- The z-score is `(spread - mean)/std` exactly when both statistics are
present and the std exceeds `1e-9`. -/
theorem zscoreOf_iff (sp : ℚ) (avg : Option ℚ) (std : Option ℝ) (z : ℝ) :
    zscoreOf sp avg std = some z ↔
      ∃ a st, avg = some a ∧ std = some st ∧ (1 / 1000000000 : ℝ) < st ∧
        z = ((sp : ℝ) - a) / st := by
  unfold zscoreOf
  cases std with
  | none => simp
  | some st =>
    cases avg with
    | none => simp
    | some a =>
      by_cases h : (1 / 1000000000 : ℝ) < st
      · simp only [if_pos h, Option.some.injEq]
        constructor
        · rintro rfl
          exact ⟨a, st, rfl, rfl, h, rfl⟩
        · rintro ⟨a', st', ha, hst, _, hz⟩
          cases ha; cases hst; exact hz.symm
      · simp only [if_neg h]
        constructor
        · intro hc; exact absurd hc (by simp)
        · rintro ⟨a', st', ha, hst, hgt, _⟩
          cases ha; cases hst; exact absurd hgt h

/-- Claim C3: for every pair of retained series, window count and current
spread — (i) the spread-sample sequence the query path computes is exactly
the rank-pairing of the `i`-th most recent points of the two recent
selections, pairs with non-positive average mid contributing no sample;
(ii) the reported mean is the arithmetic mean of that sequence, the reported
std uses Bessel's correction (sum of squared deviations over `n-1`) for
`n ≥ 2`, equals `0` for `n = 1`, and both are absent for `n = 0`, the
sample count being `n`; (iii) the z-score equals `(spread_pct - mean)/std`
exactly when `std > 1e-9` and the mean is present, and is absent otherwise. -/
theorem C3_rolling_stats_engine (sA sB : Series) (window : ℤ) (sp : ℚ) :
    spreadSamples (recentSlice window sA) (recentSlice window sB)
      = specSpreadSamples (recentSlice window sA) (recentSlice window sB) ∧
    (∀ s : List ℚ,
      ((statsOf s).1 = if s.length = 0 then none else some (s.sum / s.length)) ∧
      ((statsOf s).2.1 = if s.length = 0 then none
        else if s.length = 1 then some (0 : ℝ)
        else some (Real.sqrt
          (((s.map (fun x => (x - s.sum / (s.length : ℚ)) ^ 2)).sum
            / ((s.length : ℚ) - 1) : ℚ)))) ∧
      (statsOf s).2.2 = s.length) ∧
    (∀ (avg : Option ℚ) (std : Option ℝ) (z : ℝ),
      zscoreOf sp avg std = some z ↔
        ∃ a st, avg = some a ∧ std = some st ∧ (1 / 1000000000 : ℝ) < st ∧
          z = ((sp : ℝ) - a) / st) :=
  ⟨spreadSamples_eq_spec _ _,
   fun s => ⟨statsOf_mean s, statsOf_std s, statsOf_samples s⟩,
   fun avg std z => zscoreOf_iff sp avg std z⟩

end Pulse
